import Mathlib

/-!
Shallow embedding of the Portable-Tools app registry and launch coordinator.

The embedding follows the two source files:
* `launcher.pyw` — the GUI registry (`PortableAppItem`, `PortableLauncher`):
  scanning, filtering, launching, renaming, drag-drop add, config load.
* `Portable.ps1` — the CLI (`Add-App`, `Launch-App`, `Remove-App`,
  `Show-AppInfo`): name-substring lookup and the CLI add operation.

Filesystem effects (existence checks, `rglob` results, copy success,
process-spawn success) are passed in explicitly; timestamps are passed as
the ISO-8601 strings the code stores and compares.
-/

namespace PortableTools

/-- One portable application entry; mirrors `PortableAppItem` in
`launcher.pyw` (fields `name`, `path`, `icon_path`, `favorite`,
`last_run`, `run_count`; `last_run = ""` means "never run"). -/
structure PortableAppItem where
  name : String
  path : String
  icon_path : String
  favorite : Bool
  last_run : String
  run_count : Nat
deriving DecidableEq, Repr

/-- `PortableAppItem.__init__` with its defaults: `icon_path = ""`,
`favorite = False`, `last_run = ""`, `run_count = 0`. -/
def PortableAppItem.mkNew (name path : String) : PortableAppItem :=
  ⟨name, path, "", false, "", 0⟩

/-- Split a character list at the path separators `/` and `\`
(`pathlib` and .NET accept both on Windows). -/
def splitSeps : List Char → List (List Char)
  | [] => [[]]
  | c :: cs =>
      let r := splitSeps cs
      if c = '/' ∨ c = '\\' then [] :: r
      else
        match r with
        | [] => [[c]]
        | h :: t => (c :: h) :: t

/-- The final path component: the text after the last `/` or `\`
separator (`pathlib.Path(p).name`, `Get-Item` `.Name`). -/
def lastComponent (p : String) : String :=
  ⟨(splitSeps p.data).getLastD []⟩

/-- `pathlib.Path(p).stem`: the final component without its last
extension; a dot that is the first or the last character of the
component does not start an extension. -/
def stem (p : String) : String :=
  let cs := (lastComponent p).data
  match cs.reverse.findIdx? (· == '.') with
  | none => ⟨cs⟩
  | some r =>
      let i := cs.length - 1 - r
      if 0 < i ∧ i < cs.length - 1 then ⟨cs.take i⟩ else ⟨cs⟩

/-- `.Extension` of a file item (.NET semantics): from the last dot of the
final component to its end; empty when there is no dot or the dot is the
final character. -/
def extension (p : String) : String :=
  let cs := (lastComponent p).data
  match cs.reverse.findIdx? (· == '.') with
  | none => ""
  | some r =>
      let i := cs.length - 1 - r
      if i < cs.length - 1 then ⟨cs.drop i⟩ else ""

/-- `.BaseName` of a file item (.NET `GetFileNameWithoutExtension`): the
final component with its `extension` removed. -/
def psBaseName (p : String) : String :=
  let cs := (lastComponent p).data
  ⟨cs.take (cs.length - (extension p).data.length)⟩

/-- ASCII lowercasing, character by character (`str.lower()`,
PowerShell's case-insensitive `-like`, restricted to ASCII). -/
def lowerStr (s : String) : String :=
  ⟨s.data.map Char.toLower⟩

/-- Strip leading and trailing whitespace (`str.strip()`,
`[string]::IsNullOrWhiteSpace` via emptiness of the result). -/
def strip (s : String) : String :=
  ⟨((s.data.dropWhile Char.isWhitespace).reverse.dropWhile
      Char.isWhitespace).reverse⟩

/-- Lexicographic order on code points, the order Python uses to compare
the ISO-8601 `last_run` strings. -/
def charListLE : List Char → List Char → Bool
  | [], _ => true
  | _ :: _, [] => false
  | a :: as, b :: bs => if a = b then charListLE as bs else decide (a < b)

/-- All suffixes of a character list, longest first. -/
def charSuffixes : List Char → List (List Char)
  | [] => [[]]
  | c :: cs => (c :: cs) :: charSuffixes cs

/-- Substring containment, Python's `needle in hay` on strings. -/
def strContainsSub (hay needle : String) : Bool :=
  (charSuffixes hay.data).any (fun t => needle.data.isPrefixOf t)

/-! ## Filtering and search — `PortableLauncher.apply_current_filter` -/

/-- The comparison passed to the descending stable sort of the `recent`
branch: Python's `sorted(key=lambda x: x.last_run, reverse=True)` places
`a` before `b` exactly when `b.last_run ≤ a.last_run` fails to demote it,
i.e. it is a stable sort by the Boolean `b.last_run ≤ a.last_run`. -/
def recentLE (a b : PortableAppItem) : Bool :=
  charListLE b.last_run.data a.last_run.data

/-- The filter branch of `apply_current_filter`: `"all"` keeps every
record, `"favorites"` keeps the favorites in order, `"recent"` keeps the
records with a non-empty `last_run`, stably sorted by `last_run`
descending and truncated to 10; any other filter string falls back to the
full list (the `else` branch). -/
def filterByKind (apps : List PortableAppItem) (current_filter : String) :
    List PortableAppItem :=
  if current_filter = "all" then apps
  else if current_filter = "favorites" then apps.filter (fun a => a.favorite)
  else if current_filter = "recent" then
    (((apps.filter (fun a => a.last_run != "")).mergeSort recentLE).take 10)
  else apps

/-- `PortableLauncher.apply_current_filter`: lowercases the search box
text, applies the filter branch, and — only when the lowered search text
is non-empty — keeps the records whose lowercased `name` contains it. -/
def apply_current_filter (apps : List PortableAppItem)
    (current_filter search_input : String) : List PortableAppItem :=
  let search_text := lowerStr search_input
  let filtered := filterByKind apps current_filter
  if search_text = "" then filtered
  else filtered.filter (fun a => strContainsSub (lowerStr a.name) search_text)

/-! ## Launching — `PortableLauncher.launch_app` / `run_as_admin` -/

/-- What a launch attempt leaves behind: the record's state after the
call, whether `save_apps` ran, and the error message shown on failure. -/
structure LaunchOutcome where
  app : PortableAppItem
  saved : Bool
  error : Option String
deriving DecidableEq, Repr

/-- `PortableLauncher.launch_app`: `subprocess.Popen` first (success given
by `spawnOk`); only on success set `last_run` to the current timestamp
`now`, increment `run_count` and call `save_apps`; the `except` branch
shows an error box and touches nothing. -/
def launch_app (app : PortableAppItem) (spawnOk : Bool) (now : String) :
    LaunchOutcome :=
  if spawnOk then
    ⟨{ app with last_run := now, run_count := app.run_count + 1 }, true, none⟩
  else
    ⟨app, false, some ("Failed to launch " ++ app.name)⟩

/-- `PortableLauncher.run_as_admin`: identical bookkeeping around the
elevated `powershell Start-Process -Verb RunAs` spawn. -/
def run_as_admin (app : PortableAppItem) (spawnOk : Bool) (now : String) :
    LaunchOutcome :=
  if spawnOk then
    ⟨{ app with last_run := now, run_count := app.run_count + 1 }, true, none⟩
  else
    ⟨app, false, some ("Failed to run as admin: " ++ app.name)⟩

/-! ## Rename — `PortableLauncher.rename_app` -/

/-- `PortableLauncher.rename_app`: the dialog returns `(new_name, ok)`;
only when `ok` holds and the stripped name is non-empty is the stripped
name assigned and `save_apps` called (second component: whether the
record changed and a save ran). -/
def rename_app (app : PortableAppItem) (ok : Bool) (new_name : String) :
    PortableAppItem × Bool :=
  if ok ∧ strip new_name ≠ "" then
    ({ app with name := strip new_name }, true)
  else (app, false)

/-! ## Scan and reconcile — `PortableLauncher.scan_portable_apps` -/

/-- The filesystem as the scan observes it: whether the `"Portable apps"`
root exists, the paths `rglob("*.exe")` enumerates under it, and the
existence check `Path(p).exists()`. -/
structure FileSystem where
  rootExists : Bool
  exeFiles : List String
  pathExists : String → Bool

/-- The insertion loop of `scan_portable_apps`: for each enumerated file
in order, derive `app_name` as the stem and append a fresh record unless
some record already carries that name. -/
def insertCandidates : List PortableAppItem → List String → List PortableAppItem
  | apps, [] => apps
  | apps, f :: fsl =>
      insertCandidates
        (if apps.any (fun a => a.name == stem f) then apps
         else apps ++ [PortableAppItem.mkNew (stem f) f]) fsl

/-- `PortableLauncher.scan_portable_apps`: when the root directory does
not exist it is created and the method returns at once, registry
untouched; otherwise every enumerated executable is inserted-if-new and
afterwards every record whose `path` no longer exists is dropped. -/
def scan_portable_apps (fs : FileSystem) (apps : List PortableAppItem) :
    List PortableAppItem :=
  if fs.rootExists then
    (insertCandidates apps fs.exeFiles).filter (fun a => fs.pathExists a.path)
  else apps

/-! ## Drag-drop add — `PortableLauncher.add_dropped_app` -/

/-- Result of the GUI add: rejection with the registry untouched, a
successful copy-and-insert carrying the destination path, or a failed
copy with the registry untouched. -/
inductive AddResult where
  | alreadyExists (apps : List PortableAppItem)
  | added (apps : List PortableAppItem) (dest : String)
  | copyFailed (apps : List PortableAppItem)
deriving DecidableEq, Repr

/-- `PortableLauncher.add_dropped_app`: derive the name as the dropped
file's stem; if any record already has that name, report and return with
nothing changed; otherwise copy the file into `"Portable apps"` (success
given by `copyOk`; a failed copy leaves the registry unmodified) and
append a fresh record pointing at the copy. -/
def add_dropped_app (apps : List PortableAppItem) (file_path : String)
    (copyOk : Bool) : AddResult :=
  let app_name := stem file_path
  if apps.any (fun a => a.name == app_name) then .alreadyExists apps
  else
    let dest := "Portable apps\\" ++ lastComponent file_path
    if copyOk then .added (apps ++ [PortableAppItem.mkNew app_name dest]) dest
    else .copyFailed apps

/-! ## CLI add — `Add-App` in `Portable.ps1` -/

/-- Result of the CLI add: the argument guards, a failed copy, the two
success shapes — `updated` when exactly one record bears the derived name
(its `path` is repointed at the new copy) and `added` when none does —
and `updateFailed` when several records bear the name: the property
assignment on the enumerated collection throws, the `catch` reports, and
no save runs (the registry is left as loaded). -/
inductive PsAddResult where
  | noPath
  | fileNotFound
  | notExe
  | copyFailed (apps : List PortableAppItem)
  | updated (apps : List PortableAppItem) (dest : String)
  | added (apps : List PortableAppItem) (dest : String)
  | updateFailed (apps : List PortableAppItem)
deriving DecidableEq, Repr

/-- `Add-App`: rejects a blank path, a missing file (`pathOk`), and a
non-`.exe` extension; then copies the file into the portable-apps
directory (before any duplicate check; success given by `copyOk`); then
collects the records whose `name` equals the file's base name under
PowerShell's case-insensitive `-eq`. With no match it appends a fresh
record and saves; with exactly one match it assigns the destination to
that record's `path` and saves; with several matches `$existing` is a
collection, the `$existing.path = $destPath` assignment throws (member
access on a collection cannot set a property), the `catch` reports the
failure, and nothing is saved. -/
def AddApp (apps : List PortableAppItem) (appPath : String)
    (pathOk copyOk : Bool) : PsAddResult :=
  if strip appPath = "" then .noPath
  else if !pathOk then .fileNotFound
  else if extension appPath != ".exe" then .notExe
  else
    let dest := "Portable apps\\" ++ lastComponent appPath
    if !copyOk then .copyFailed apps
    else
      let base := psBaseName appPath
      match apps.filter (fun a => lowerStr a.name == lowerStr base) with
      | [] => .added (apps ++ [PortableAppItem.mkNew base dest]) dest
      | [_] =>
          .updated
            (apps.map (fun a => if lowerStr a.name == lowerStr base then
                { a with path := dest } else a))
            dest
      | _ :: _ :: _ => .updateFailed apps

/-! ## CLI lookup — `Launch-App`, `Remove-App`, `Show-AppInfo` -/

/-- The match predicate of the CLI lookups:
`$_.name -like "*$Name*"`, PowerShell's case-insensitive containment. -/
def psNameLike (a : PortableAppItem) (needle : String) : Bool :=
  strContainsSub (lowerStr a.name) (lowerStr needle)

/-- The selection pipeline shared verbatim by `Launch-App`, `Remove-App`
and `Show-AppInfo`:
`$apps | Where-Object { $_.name -like "*$Name*" } | Select-Object -First 1`. -/
def selectFirstMatch (apps : List PortableAppItem) (needle : String) :
    Option PortableAppItem :=
  apps.find? (fun a => psNameLike a needle)

/-! ## Config load — `PortableAppItem.from_dict`, `PortableLauncher.load_apps` -/

/-- One JSON object of the record file's `apps` array, each field present
or absent; `from_dict` reads `name` and `path` with `data[...]` (KeyError
when absent) and the rest with `data.get(...)` defaults. -/
structure RawApp where
  name : Option String
  path : Option String
  icon_path : Option String
  favorite : Option Bool
  last_run : Option String
  run_count : Option Nat
deriving DecidableEq, Repr

/-- `PortableAppItem.from_dict`: fails (KeyError) when `name` or `path`
is missing; `icon_path`, `favorite`, `last_run`, `run_count` default to
`""`, `False`, `""`, `0`. -/
def RawApp.fromDict (d : RawApp) : Option PortableAppItem :=
  match d.name, d.path with
  | some n, some p =>
      some ⟨n, p, d.icon_path.getD "", d.favorite.getD false,
            d.last_run.getD "", d.run_count.getD 0⟩
  | _, _ => none

/-- The states `load_apps` distinguishes: `config.json` absent,
`json.load` raising, or a parsed `apps` array of raw records. -/
inductive ConfigFile where
  | absent
  | unparsable
  | parsed (apps : List RawApp)

/-- The list comprehension of `load_apps`: deserialize each raw record in
order; a record `from_dict` raises on aborts the whole comprehension. -/
def loadRecords : List RawApp → Option (List PortableAppItem)
  | [] => some []
  | d :: ds =>
      match RawApp.fromDict d, loadRecords ds with
      | some item, some items => some (item :: items)
      | _, _ => none

/-- `PortableLauncher.load_apps`: an absent file yields an empty list
silently; a file `json.load` cannot parse, or any record `from_dict`
raises on, is caught by the `except` branch, which prints the error and
yields an empty list (second component: whether an error was logged). -/
def load_apps (cfg : ConfigFile) : List PortableAppItem × Bool :=
  match cfg with
  | .absent => ([], false)
  | .unparsable => ([], true)
  | .parsed raw =>
      match loadRecords raw with
      | some items => (items, false)
      | none => ([], true)

/-! ## Order lemmas for the `last_run` comparison -/

theorem charListLE_refl : ∀ x : List Char, charListLE x x = true
  | [] => rfl
  | _ :: xs => by simp [charListLE, charListLE_refl xs]

theorem charListLE_total : ∀ x y : List Char,
    charListLE x y || charListLE y x
  | [], _ => by simp [charListLE]
  | _ :: _, [] => by simp [charListLE]
  | a :: as, b :: bs => by
    by_cases h : a = b
    · subst h; simpa [charListLE] using charListLE_total as bs
    · have h' : b ≠ a := fun e => h e.symm
      rcases lt_or_gt_of_ne h with hl | hl
      · simp [charListLE, h, h', hl]
      · simp [charListLE, h, h', hl, le_of_lt hl]

theorem charListLE_trans : ∀ x y z : List Char,
    charListLE x y = true → charListLE y z = true → charListLE x z = true
  | [], _, _ => by simp [charListLE]
  | _ :: _, [], _ => by simp [charListLE]
  | _ :: _, _ :: _, [] => by intro _ h; simp [charListLE] at h
  | a :: as, b :: bs, c :: cs => by
    intro h1 h2
    by_cases hab : a = b <;> by_cases hbc : b = c
    · subst hab; subst hbc
      simp only [charListLE, if_pos rfl] at h1 h2 ⊢
      exact charListLE_trans as bs cs h1 h2
    · subst hab
      simp [charListLE, hbc] at h2
      simp [charListLE, hbc, h2]
    · subst hbc
      simp [charListLE, hab] at h1
      simp [charListLE, hab, h1]
    · simp [charListLE, hab] at h1
      simp [charListLE, hbc] at h2
      have hac : a < c := lt_trans h1 h2
      simp [charListLE, ne_of_lt hac, hac]

theorem recentLE_trans (a b c : PortableAppItem) :
    recentLE a b → recentLE b c → recentLE a c := fun h1 h2 =>
  charListLE_trans _ _ _ h2 h1

theorem recentLE_total (a b : PortableAppItem) :
    recentLE a b || recentLE b a := by
  simpa [recentLE] using charListLE_total b.last_run.data a.last_run.data

/-! ## Concrete records and filesystems used by witnesses -/

def fooApp : PortableAppItem :=
  ⟨"Foo", "Portable apps\\Foo.exe", "", false, "2024-01-01T08:30:00", 3⟩

def ghostApp : PortableAppItem := ⟨"Ghost", "C:\\gone\\Ghost.exe", "", false, "", 0⟩

def noRootFs : FileSystem := ⟨false, [], fun _ => false⟩

def emptyRootFs : FileSystem := ⟨true, [], fun _ => false⟩

def barOld : PortableAppItem := ⟨"Bar", "C:\\old\\Bar.exe", "", false, "", 0⟩

def barMoved : PortableAppItem :=
  ⟨"Bar", "Portable apps\\Bar.exe", "", false, "", 0⟩

def barUpper : PortableAppItem := ⟨"BAR", "C:\\other\\BAR.exe", "", false, "", 0⟩

def alphaApp : PortableAppItem :=
  PortableAppItem.mkNew "Alpha" "Portable apps\\Alpha.exe"

def noteOne : PortableAppItem :=
  PortableAppItem.mkNew "NotepadOne" "Portable apps\\NotepadOne.exe"

def noteTwo : PortableAppItem :=
  PortableAppItem.mkNew "NotepadTwo" "Portable apps\\NotepadTwo.exe"

def fsShadow : FileSystem :=
  ⟨true, ["Portable apps\\Foo.exe"], fun p => p == "Portable apps\\Foo.exe"⟩

def staleFoo : PortableAppItem := ⟨"Foo", "C:\\gone\\Foo.exe", "", false, "", 0⟩

def fsClean : FileSystem :=
  ⟨true, ["Portable apps\\A.exe"], fun p => p == "Portable apps\\A.exe"⟩

def badRaw : RawApp := ⟨none, some "C:\\x.exe", none, none, none, none⟩

def badRawNoPath : RawApp := ⟨some "X", none, none, none, none, none⟩

/-! ## C1 — launch statistics -/

/-- C1: a successful launch — normal or elevated — increments `run_count`
by exactly 1, sets `last_run` to the current timestamp (which is ≥ the
previous value), and triggers a registry save; a launch whose spawn fails
reports the error to the caller and leaves the record, hence `run_count`
and `last_run`, unchanged with no save. -/
theorem launch_stats_monotone (app : PortableAppItem) (now : String)
    (hmono : charListLE app.last_run.data now.data = true) :
    ((launch_app app true now).app.run_count = app.run_count + 1 ∧
      (launch_app app true now).app.last_run = now ∧
      charListLE app.last_run.data
        (launch_app app true now).app.last_run.data = true ∧
      (launch_app app true now).saved = true ∧
      (launch_app app true now).error = none) ∧
    launch_app app false now =
      ⟨app, false, some ("Failed to launch " ++ app.name)⟩ ∧
    ((run_as_admin app true now).app.run_count = app.run_count + 1 ∧
      (run_as_admin app true now).app.last_run = now ∧
      charListLE app.last_run.data
        (run_as_admin app true now).app.last_run.data = true ∧
      (run_as_admin app true now).saved = true ∧
      (run_as_admin app true now).error = none) ∧
    run_as_admin app false now =
      ⟨app, false, some ("Failed to run as admin: " ++ app.name)⟩ :=
  ⟨⟨rfl, rfl, hmono, rfl, rfl⟩, rfl, ⟨rfl, rfl, hmono, rfl, rfl⟩, rfl⟩

/-- Witness for C1 at a concrete record and a later timestamp. -/
theorem launch_stats_monotone_witness :
    (launch_app fooApp true "2024-06-02T10:00:00").app.run_count = 4 ∧
    (launch_app fooApp false "2024-06-02T10:00:00").app = fooApp := by
  have h := launch_stats_monotone fooApp "2024-06-02T10:00:00" (by decide)
  exact ⟨h.1.1, by rw [h.2.1]⟩

/-! ## C10 — rename validation -/

/-- C10: rename rejects a new name that is empty or whitespace-only (the
record is unchanged and no save runs, likewise when the dialog is
cancelled), and an accepted name is stripped of surrounding whitespace
before being assigned. -/
theorem rename_rejects_blank_and_strips (app : PortableAppItem)
    (ok : Bool) (new_name : String) :
    (strip new_name = "" → rename_app app ok new_name = (app, false)) ∧
    (ok = false → rename_app app ok new_name = (app, false)) ∧
    (ok = true → strip new_name ≠ "" →
      rename_app app ok new_name = ({ app with name := strip new_name }, true)) := by
  refine ⟨fun h => ?_, fun h => ?_, fun h hne => ?_⟩ <;>
    simp [rename_app, *]

/-- Witness for C10: a padded name is stripped; a whitespace-only name is
rejected without change. -/
theorem rename_rejects_blank_and_strips_witness :
    rename_app fooApp true "  Foo Two  " = ({ fooApp with name := "Foo Two" }, true) ∧
    rename_app fooApp true "   " = (fooApp, false) := by
  constructor
  · rw [(rename_rejects_blank_and_strips fooApp true "  Foo Two  ").2.2 rfl (by decide)]
    decide
  · exact (rename_rejects_blank_and_strips fooApp true "   ").1 (by decide)

/-! ## C7 — config load fallback -/

/-- C7: `load_apps` yields an empty registry when the record file is
absent, and on any parse failure — `json.load` raising or a record the
comprehension cannot deserialize — it logs the error and yields an empty
registry instead of propagating the failure; a fully parsed file yields
its records with nothing logged. -/
theorem load_apps_fallback (raw : List RawApp) :
    load_apps .absent = ([], false) ∧
    load_apps .unparsable = ([], true) ∧
    (loadRecords raw = none → load_apps (.parsed raw) = ([], true)) ∧
    (∀ items, loadRecords raw = some items →
      load_apps (.parsed raw) = (items, false)) :=
  ⟨rfl, rfl, fun h => by simp [load_apps, h], fun items h => by simp [load_apps, h]⟩

/-- Witness for C7 at a malformed record file. -/
theorem load_apps_fallback_witness :
    load_apps (.parsed [badRaw]) = ([], true) :=
  (load_apps_fallback [badRaw]).2.2.1 (by decide)

/-! ## C9 — mandatory `name` and `path` keys -/

theorem loadRecords_eq_none_of_mem {raw : List RawApp} {r : RawApp}
    (hmem : r ∈ raw) (hr : RawApp.fromDict r = none) :
    loadRecords raw = none := by
  induction raw with
  | nil => cases hmem
  | cons x xs ih =>
    rcases List.mem_cons.mp hmem with h | h
    · subst h; simp [loadRecords, hr]
    · rw [loadRecords, ih h]
      cases RawApp.fromDict x <;> rfl

/-- C9: a record object missing the `name` key or the `path` key makes
deserialization of that record fail, and `load_apps` then discards the
whole file and returns an empty registry; the per-field defaulting
applies only to `icon_path`, `favorite`, `last_run` and `run_count`. -/
theorem missing_name_or_path_discards_file (raw : List RawApp) (r : RawApp)
    (hmem : r ∈ raw) (hbad : r.name = none ∨ r.path = none) :
    load_apps (.parsed raw) = ([], true) ∧
    (∀ (d : RawApp) (n p : String), d.name = some n → d.path = some p →
      RawApp.fromDict d = some ⟨n, p, d.icon_path.getD "", d.favorite.getD false,
        d.last_run.getD "", d.run_count.getD 0⟩) := by
  constructor
  · have hr : RawApp.fromDict r = none := by
      rcases hbad with h | h
      · simp [RawApp.fromDict, h]
      · cases hn : r.name <;> simp [RawApp.fromDict, h, hn]
    simp [load_apps, loadRecords_eq_none_of_mem hmem hr]
  · intro d n p hn hp
    simp [RawApp.fromDict, hn, hp]

/-- Witness for C9 at a record that lacks `path`. -/
theorem missing_name_or_path_discards_file_witness :
    load_apps (.parsed [badRawNoPath]) = ([], true) :=
  (missing_name_or_path_discards_file [badRawNoPath] badRawNoPath
    (List.mem_singleton.mpr rfl) (Or.inr rfl)).1

/-! ## C8 — CLI substring lookup picks the first match -/

/-- C8: the lookup pipeline shared by the CLI `launch`, `remove` and
`info` operations selects the first record, in registry order, whose name
contains the given substring — whatever matches come later. -/
theorem cli_lookup_first_match (pre post : List PortableAppItem)
    (a : PortableAppItem) (needle : String)
    (hpre : ∀ b ∈ pre, psNameLike b needle = false)
    (ha : psNameLike a needle = true) :
    selectFirstMatch (pre ++ a :: post) needle = some a := by
  induction pre with
  | nil =>
    simp only [List.nil_append, selectFirstMatch]
    exact List.find?_cons_of_pos _ ha
  | cons b bs ih =>
    have hb := hpre b (List.mem_cons_self b bs)
    have ih' := ih fun x hx => hpre x (List.mem_cons_of_mem _ hx)
    simp only [List.cons_append, selectFirstMatch] at ih' ⊢
    rw [List.find?_cons_of_neg _ (by simp [hb])]
    exact ih'

/-- Witness for C8: two records match `"notepad"`; the first in registry
order is returned. -/
theorem cli_lookup_first_match_witness :
    selectFirstMatch [alphaApp, noteOne, noteTwo] "notepad" = some noteOne :=
  cli_lookup_first_match [alphaApp] [noteTwo] noteOne "notepad"
    (by decide) (by decide)

/-! ## C3 — prune invariant needs the root to exist -/

/-- C3 counterexample: with the scanned root absent, `scan_portable_apps`
creates the directory and returns at once, so a record whose path does
not exist survives reconciliation — the claim's "including when the
scanned root directory itself does not exist" fails. -/
theorem prune_requires_root_counterexample :
    noRootFs.pathExists ghostApp.path = false ∧
    ghostApp ∈ scan_portable_apps noRootFs [ghostApp] := by decide

/-- C3 (amended): provided the scanned root exists, every record whose
path does not exist at reconciliation time is absent from the registry
afterward; when the root does not exist, the scan returns with the
registry unchanged. -/
theorem prune_requires_root (fs : FileSystem) (apps : List PortableAppItem)
    (hroot : fs.rootExists = true) :
    (∀ a ∈ scan_portable_apps fs apps, fs.pathExists a.path = true) ∧
    (∀ R : PortableAppItem, fs.pathExists R.path = false →
      R ∉ scan_portable_apps fs apps) := by
  have hmem : ∀ a ∈ scan_portable_apps fs apps, fs.pathExists a.path = true := by
    intro a ha
    rw [scan_portable_apps, if_pos hroot] at ha
    exact (List.mem_filter.mp ha).2
  refine ⟨hmem, fun R hR hmemR => ?_⟩
  rw [hmem R hmemR] at hR
  cases hR

/-- Witness for C3 (amended): with an existing, empty root, the stale
record is pruned. -/
theorem prune_requires_root_witness :
    ghostApp ∉ scan_portable_apps emptyRootFs [ghostApp] :=
  (prune_requires_root emptyRootFs [ghostApp] rfl).2 ghostApp rfl

/-! ## C6 — search narrows the filtered set -/

/-- C6: for every filter kind, search string and registry state, the
search is applied after the filter: the empty search string is a no-op
(the query equals the filtered set itself), and a query with a search
string is a subsequence of the query without one — it narrows, never adds
or reorders. -/
theorem search_narrows (apps : List PortableAppItem) (filt s : String) :
    apply_current_filter apps filt "" = filterByKind apps filt ∧
    (apply_current_filter apps filt s).Sublist
      (apply_current_filter apps filt "") := by
  have hempty : apply_current_filter apps filt "" = filterByKind apps filt := rfl
  refine ⟨hempty, ?_⟩
  rw [hempty]
  by_cases h : lowerStr s = ""
  · rw [apply_current_filter, if_pos h]
  · rw [apply_current_filter, if_neg h]
    exact List.filter_sublist _

/-! ## C2 — duplicate-name add -/

/-- C2 counterexample: adding `C:\new\Bar.exe` through the CLI while a
record named `Bar` exists does not reject and does not leave the registry
unchanged — the file is copied and the existing record's `path` is
repointed at the copy. -/
theorem cli_add_updates_counterexample :
    AddApp [barOld] "C:\\new\\Bar.exe" true true =
      .updated [barMoved] "Portable apps\\Bar.exe" ∧
    barMoved ≠ barOld := by decide

/-- C2 (amended): the GUI add derives the name from the filename stem
and, on a duplicate name, returns already-exists with the registry
unchanged and no copy performed; the CLI `Add-App`, however, copies the
file into the managed directory before its duplicate check
(case-insensitive), and on a duplicate it does not reject: with exactly
one record bearing the derived name it repoints that record's `path` at
the new destination and saves (count unchanged, records not identical),
while with several same-named records the property assignment throws and
nothing is saved. -/
theorem add_duplicate_behavior (apps : List PortableAppItem)
    (file_path : String)
    (hdupPy : apps.any (fun a => a.name == stem file_path) = true)
    (hblank : strip file_path ≠ "")
    (hext : extension file_path = ".exe") :
    (∀ copyOk, add_dropped_app apps file_path copyOk = .alreadyExists apps) ∧
    ((apps.filter (fun a =>
        lowerStr a.name == lowerStr (psBaseName file_path))).length = 1 →
      AddApp apps file_path true true =
        .updated
          (apps.map (fun a =>
            if lowerStr a.name == lowerStr (psBaseName file_path) then
              { a with path := "Portable apps\\" ++ lastComponent file_path }
            else a))
          ("Portable apps\\" ++ lastComponent file_path)) ∧
    (2 ≤ (apps.filter (fun a =>
        lowerStr a.name == lowerStr (psBaseName file_path))).length →
      AddApp apps file_path true true = .updateFailed apps) := by
  refine ⟨fun copyOk => ?_, fun hone => ?_, fun hmulti => ?_⟩
  · simp [add_dropped_app, hdupPy]
  · obtain ⟨x, hx⟩ := List.length_eq_one.mp hone
    simp [AddApp, hblank, hext, hx]
  · rcases hfl : apps.filter (fun a =>
        lowerStr a.name == lowerStr (psBaseName file_path)) with _ | ⟨x, _ | ⟨y, t⟩⟩
    · rw [hfl] at hmulti
      simp at hmulti
    · rw [hfl] at hmulti
      simp at hmulti
    · simp [AddApp, hblank, hext, hfl]

/-- Witness for C2 at the scenario of the claim — a record named `Bar`
exists and `C:\new\Bar.exe` is added — and at a registry holding both
`Bar` and `BAR`, where the CLI update throws and saves nothing. -/
theorem add_duplicate_behavior_witness :
    add_dropped_app [barOld] "C:\\new\\Bar.exe" true = .alreadyExists [barOld] ∧
    AddApp [barOld] "C:\\new\\Bar.exe" true true =
      .updated [barMoved] "Portable apps\\Bar.exe" ∧
    AddApp [barOld, barUpper] "C:\\new\\Bar.exe" true true =
      .updateFailed [barOld, barUpper] := by
  have h1 := add_duplicate_behavior [barOld] "C:\\new\\Bar.exe"
    (by decide) (by decide) (by decide)
  have h2 := add_duplicate_behavior [barOld, barUpper] "C:\\new\\Bar.exe"
    (by decide) (by decide) (by decide)
  refine ⟨h1.1 true, ?_, h2.2.2 (by decide)⟩
  rw [h1.2.1 (by decide)]
  decide

/-! ## C5 — reconciliation is not idempotent -/

/-- C5 counterexample: a stale record named `Foo` (its path gone) shadows
the live candidate `Portable apps\Foo.exe` during the first scan's
insertion pass and is then pruned, so the registry after one scan is
empty; the second scan, over the unchanged filesystem, inserts the
candidate — the two registries differ. -/
theorem scan_not_idempotent_counterexample :
    scan_portable_apps fsShadow (scan_portable_apps fsShadow [staleFoo]) ≠
      scan_portable_apps fsShadow [staleFoo] := by decide

theorem insertCandidates_all_exist (p : String → Bool) :
    ∀ (files : List String) (apps : List PortableAppItem),
    (∀ a ∈ apps, p a.path = true) → (∀ f ∈ files, p f = true) →
    ∀ a ∈ insertCandidates apps files, p a.path = true
  | [], apps, happs, _ => happs
  | f :: fsl, apps, happs, hfiles => by
    rw [insertCandidates]
    apply insertCandidates_all_exist p fsl
    · by_cases hdup : apps.any (fun a => a.name == stem f) = true
      · rw [if_pos hdup]; exact happs
      · rw [if_neg hdup]
        intro a ha
        rcases List.mem_append.mp ha with ha | ha
        · exact happs a ha
        · rw [List.mem_singleton.mp ha]
          exact hfiles f (List.mem_cons_self f fsl)
    · exact fun g hg => hfiles g (List.mem_cons_of_mem f hg)

theorem insertCandidates_any_name (n : String) :
    ∀ (files : List String) (apps : List PortableAppItem),
    apps.any (fun a => a.name == n) = true →
    (insertCandidates apps files).any (fun a => a.name == n) = true
  | [], _, h => h
  | f :: fsl, apps, h => by
    rw [insertCandidates]
    apply insertCandidates_any_name n fsl
    by_cases hdup : apps.any (fun a => a.name == stem f) = true
    · rw [if_pos hdup]; exact h
    · rw [if_neg hdup, List.any_append, h]; rfl

theorem insertCandidates_mem_name :
    ∀ (files : List String) (apps : List PortableAppItem) (f : String),
    f ∈ files →
    (insertCandidates apps files).any (fun a => a.name == stem f) = true
  | [], _, _, hf => absurd hf (List.not_mem_nil _)
  | g :: gs, apps, f, hf => by
    rw [insertCandidates]
    rcases List.mem_cons.mp hf with h | h
    · subst h
      apply insertCandidates_any_name
      by_cases hdup : apps.any (fun a => a.name == stem f) = true
      · rw [if_pos hdup]; exact hdup
      · rw [if_neg hdup, List.any_append]
        simp [PortableAppItem.mkNew]
    · exact insertCandidates_mem_name gs _ f h

theorem insertCandidates_id :
    ∀ (files : List String) (apps : List PortableAppItem),
    (∀ f ∈ files, apps.any (fun a => a.name == stem f) = true) →
    insertCandidates apps files = apps
  | [], _, _ => rfl
  | f :: fsl, apps, h => by
    rw [insertCandidates, if_pos (h f (List.mem_cons_self f fsl))]
    exact insertCandidates_id fsl apps
      (fun g hg => h g (List.mem_cons_of_mem f hg))

/-- C5 (amended): one scan-and-reconcile pass is idempotent provided the
scanned root exists, every enumerated executable exists on disk, and
every starting record's path exists; without the last condition a stale
record can shadow a live candidate in the first run, be pruned, and leave
the second run something to insert. -/
theorem scan_idempotent_amended (fs : FileSystem)
    (apps : List PortableAppItem)
    (hroot : fs.rootExists = true)
    (hfiles : ∀ f ∈ fs.exeFiles, fs.pathExists f = true)
    (happs : ∀ a ∈ apps, fs.pathExists a.path = true) :
    scan_portable_apps fs (scan_portable_apps fs apps) =
      scan_portable_apps fs apps := by
  have h1 : ∀ a ∈ insertCandidates apps fs.exeFiles,
      fs.pathExists a.path = true :=
    insertCandidates_all_exist _ _ _ happs hfiles
  have hfilter : (insertCandidates apps fs.exeFiles).filter
      (fun a => fs.pathExists a.path) = insertCandidates apps fs.exeFiles :=
    List.filter_eq_self.mpr h1
  have hscan1 : scan_portable_apps fs apps = insertCandidates apps fs.exeFiles := by
    rw [scan_portable_apps, if_pos hroot, hfilter]
  have h3 : insertCandidates (insertCandidates apps fs.exeFiles) fs.exeFiles =
      insertCandidates apps fs.exeFiles :=
    insertCandidates_id _ _ (fun f hf => insertCandidates_mem_name _ _ f hf)
  rw [hscan1, scan_portable_apps, if_pos hroot, h3, hfilter]

/-- Witness for C5 (amended) on a clean filesystem and an empty starting
registry. -/
theorem scan_idempotent_amended_witness :
    scan_portable_apps fsClean (scan_portable_apps fsClean []) =
      scan_portable_apps fsClean [] :=
  scan_idempotent_amended fsClean [] rfl (by decide) (by decide)

/-! ## C4 — the Recent query -/

theorem stable_take_filter (l : List PortableAppItem) (k : String) (n : Nat) :
    ∃ t, l.filter (fun a => a.last_run == k) =
      ((l.mergeSort recentLE).take n).filter (fun a => a.last_run == k) ++ t := by
  have hpw : (l.filter (fun a => a.last_run == k)).Pairwise
      (fun a b => recentLE a b) := by
    apply List.pairwise_of_forall_mem_list
    intro a ha b hb
    have hak : a.last_run = k := by simpa using (List.mem_filter.mp ha).2
    have hbk : b.last_run = k := by simpa using (List.mem_filter.mp hb).2
    show recentLE a b = true
    rw [recentLE, hak, hbk]
    exact charListLE_refl _
  have hsubsrt : List.Sublist (l.filter (fun a => a.last_run == k))
      (l.mergeSort recentLE) :=
    List.sublist_mergeSort recentLE_trans recentLE_total hpw
      (List.filter_sublist l)
  have hself : (l.filter (fun a => a.last_run == k)).filter
      (fun a => a.last_run == k) = l.filter (fun a => a.last_run == k) :=
    List.filter_eq_self.mpr (fun a ha => (List.mem_filter.mp ha).2)
  have hsub2 : List.Sublist (l.filter (fun a => a.last_run == k))
      ((l.mergeSort recentLE).filter (fun a => a.last_run == k)) := by
    have h := hsubsrt.filter (fun a => a.last_run == k)
    rwa [hself] at h
  have hperm : List.Perm
      ((l.mergeSort recentLE).filter (fun a => a.last_run == k))
      (l.filter (fun a => a.last_run == k)) :=
    (List.mergeSort_perm l recentLE).filter _
  have heq : l.filter (fun a => a.last_run == k) =
      (l.mergeSort recentLE).filter (fun a => a.last_run == k) :=
    hsub2.eq_of_length hperm.length_eq.symm
  refine ⟨((l.mergeSort recentLE).drop n).filter (fun a => a.last_run == k), ?_⟩
  rw [heq, ← List.filter_append, List.take_append_drop]

/-- C4: `query(Recent, "")` returns only records whose `last_run` is
present, in an order non-increasing by `last_run`, truncated to at most
10 records; ties on equal `last_run` keep the original registry order —
for every `last_run` value `k`, the query's records with that value are
an initial run of the registry's records with that value. -/
theorem recent_query_shape (apps : List PortableAppItem) :
    (∀ a ∈ apply_current_filter apps "recent" "", a.last_run ≠ "") ∧
    (apply_current_filter apps "recent" "").Pairwise
      (fun a b => charListLE b.last_run.data a.last_run.data = true) ∧
    (apply_current_filter apps "recent" "").length ≤ 10 ∧
    (∀ k : String, ∃ t,
      (apps.filter (fun a => a.last_run != "")).filter
          (fun a => a.last_run == k) =
        (apply_current_filter apps "recent" "").filter
          (fun a => a.last_run == k) ++ t) := by
  have hq : apply_current_filter apps "recent" "" =
      ((apps.filter (fun a => a.last_run != "")).mergeSort recentLE).take 10 :=
    rfl
  refine ⟨?_, ?_, ?_, ?_⟩
  · intro a ha
    rw [hq] at ha
    have h2 := List.mem_mergeSort.mp (List.mem_of_mem_take ha)
    simpa using (List.mem_filter.mp h2).2
  · rw [hq]
    exact List.Pairwise.sublist (List.take_sublist 10 _)
      (List.sorted_mergeSort recentLE_trans recentLE_total
        (apps.filter (fun a => a.last_run != "")))
  · rw [hq, List.length_take]
    exact Nat.min_le_left _ _
  · intro k
    rw [hq]
    exact stable_take_filter (apps.filter (fun a => a.last_run != "")) k 10

end PortableTools
